import Mathlib

/-!
Verification of the `synth-core` text-extraction library.

The source (`src/synth-core/src/lib.rs`) exposes three operations:

* `extract_text` — reads a `.docx` file, decodes it with the external
  `docx_rs::read_docx` collaborator, walks the resulting document tree
  (Document → Paragraph → Run → Text), concatenates the text fragments,
  appends one newline per paragraph, and hands the result back across the
  FFI boundary as a freshly allocated C string (null on any failure,
  including a failed `CString::new` when the text contains a NUL byte);
* `free_string` — releases a previously returned C string, with an explicit
  null check guarding the deallocation;
* `strip_ansi` — removes ANSI escape sequences from a string (used by the
  `kiro_chat` glue).

The embedding below models the document tree exactly as the `docx_rs` data
that `extract_text` pattern-matches on: each level is a sum with the one
relevant constructor plus an `other` constructor standing for every variant
the code skips.  The byte-decoding step (`read_docx`) is an external
collaborator, so `extract_text` is modelled from the point where the decode
outcome is known: the pre-decode failure branches (unreadable path, IO
failure, parse failure) all return the null pointer, collapsed here into
`DecodeOutcome.err`; the post-decode traversal and `CString::new` step are
translated from the source line by line.  A C string result is `Option
String`, with `none` playing the role of the null pointer.
-/

namespace Synth

/-- Leaf text node (`docx_rs::Text`): carries the literal string value. -/
structure Text where
  text : String

/-- A run child: the code only inspects `RunChild::Text(t)`; every other
variant is represented by `other` and is skipped. -/
inductive RunChild where
  | text (t : Text)
  | other

/-- A run (`docx_rs::Run`): an ordered sequence of run children. -/
structure Run where
  children : List RunChild

/-- A paragraph child: the code only inspects `ParagraphChild::Run(r)`;
every other variant is represented by `other` and is skipped. -/
inductive ParagraphChild where
  | run (r : Run)
  | other

/-- A paragraph (`docx_rs::Paragraph`): an ordered sequence of paragraph
children. -/
structure Paragraph where
  children : List ParagraphChild

/-- A document child: the code only inspects `DocumentChild::Paragraph(p)`;
every other variant (tables, sections, ...) is represented by `other`. -/
inductive DocumentChild where
  | paragraph (p : Paragraph)
  | other

/-- The document body (`docx_rs::Document`): an ordered sequence of
document children. -/
structure Document where
  children : List DocumentChild

/-- The decoded container (`docx_rs::Docx`): `extract_text` traverses
`doc.document.children`. -/
structure Docx where
  document : Document

/-- Outcome of the byte-loading and decoding steps that precede the
traversal.  `err` stands for every early-return branch of the source
(path not UTF-8, `File::open` failure, `read_to_end` failure,
`read_docx` failure), all of which return the null pointer. -/
inductive DecodeOutcome where
  | err
  | ok (d : Docx)

/-- One iteration of the innermost loop of `extract_text`:
`if let RunChild::Text(t) = rc { text.push_str(&t.text) }`. -/
def runChildStep (acc : String) : RunChild → String
  | .text t => acc ++ t.text
  | .other => acc

/-- One iteration of the middle loop of `extract_text`:
`if let ParagraphChild::Run(r) = pc { for rc in r.children { ... } }`. -/
def paragraphChildStep (acc : String) : ParagraphChild → String
  | .run r => r.children.foldl runChildStep acc
  | .other => acc

/-- Processing of a single `Paragraph` by `extract_text`: run the middle
loop over its children, then `text.push('\n')`. -/
def extractParagraph (acc : String) (p : Paragraph) : String :=
  (p.children.foldl paragraphChildStep acc).push '\n'

/-- One iteration of the outer loop of `extract_text`:
`if let DocumentChild::Paragraph(p) = child { ... }`. -/
def documentChildStep (acc : String) : DocumentChild → String
  | .paragraph p => extractParagraph acc p
  | .other => acc

/-- The traversal/accumulation phase of `extract_text`: the outer `for`
loop over `doc.document.children`, starting from the empty buffer. -/
def extractBody (doc : Docx) : String :=
  doc.document.children.foldl documentChildStep ""

/-- `CString::new`: succeeds exactly when the string contains no NUL
byte (for UTF-8 text, no `'\x00'` character); on an interior NUL it
fails and the source's `unwrap_or(null_mut())` yields the null pointer. -/
def cstring_new (t : String) : Option String :=
  if '\x00' ∈ t.data then none else some t

/-- `extract_text`, from the point where the decode outcome is known:
every pre-traversal failure returns null (`none`); on a decoded document
the traversal runs and the result goes through `CString::new`. -/
def extract_text : DecodeOutcome → Option String
  | .err => none
  | .ok doc => cstring_new (extractBody doc)

/-- Spec-side definition (from the spec's words, for comparison with the
translated code): the text of a run is the concatenation of its text
fragments in order, nothing between them. -/
def textOfRunChildren : List RunChild → String
  | [] => ""
  | .text t :: rest => t.text ++ textOfRunChildren rest
  | .other :: rest => textOfRunChildren rest

/-- Spec-side definition: the text of a paragraph is the concatenation of
its runs' fragments in document order, no separator inserted. -/
def textOfParagraphChildren : List ParagraphChild → String
  | [] => ""
  | .run r :: rest => textOfRunChildren r.children ++ textOfParagraphChildren rest
  | .other :: rest => textOfParagraphChildren rest

/-- Spec-side definition: the assembled text of one paragraph. -/
def specParagraphText (p : Paragraph) : String :=
  textOfParagraphChildren p.children

/-- Spec-side definition: the paragraph texts of a document, in declared
document order, skipping non-paragraph children. -/
def specLines (d : Document) : List String :=
  d.children.filterMap fun c =>
    match c with
    | .paragraph p => some (specParagraphText p)
    | .other => none

/-- Spec-side definition: the full result the spec describes — each
paragraph's text followed by one newline, in document order. -/
def bodyOfChildren : List DocumentChild → String
  | [] => ""
  | .paragraph p :: rest => specParagraphText p ++ "\n" ++ bodyOfChildren rest
  | .other :: rest => bodyOfChildren rest

theorem push_newline (s : String) : s.push '\n' = s ++ "\n" := by
  cases s
  rfl

theorem runChildren_foldl (l : List RunChild) (acc : String) :
    l.foldl runChildStep acc = acc ++ textOfRunChildren l := by
  induction l generalizing acc with
  | nil => simp [textOfRunChildren, String.append_empty]
  | cons c rest ih =>
    cases c with
    | text t =>
      simp only [List.foldl_cons, runChildStep, textOfRunChildren, ih,
        String.append_assoc]
    | other =>
      simp only [List.foldl_cons, runChildStep, textOfRunChildren, ih]

theorem paragraphChildren_foldl (l : List ParagraphChild) (acc : String) :
    l.foldl paragraphChildStep acc = acc ++ textOfParagraphChildren l := by
  induction l generalizing acc with
  | nil => simp [textOfParagraphChildren, String.append_empty]
  | cons c rest ih =>
    cases c with
    | run r =>
      simp only [List.foldl_cons, paragraphChildStep, textOfParagraphChildren,
        ih, runChildren_foldl, String.append_assoc]
    | other =>
      simp only [List.foldl_cons, paragraphChildStep, textOfParagraphChildren, ih]

theorem extractParagraph_eq (acc : String) (p : Paragraph) :
    extractParagraph acc p = acc ++ specParagraphText p ++ "\n" := by
  simp only [extractParagraph, paragraphChildren_foldl, push_newline,
    specParagraphText]

theorem documentChildren_foldl (l : List DocumentChild) (acc : String) :
    l.foldl documentChildStep acc = acc ++ bodyOfChildren l := by
  induction l generalizing acc with
  | nil => simp [bodyOfChildren, String.append_empty]
  | cons c rest ih =>
    cases c with
    | paragraph p =>
      simp only [List.foldl_cons, documentChildStep, bodyOfChildren,
        extractParagraph_eq, ih, String.append_assoc]
    | other =>
      simp only [List.foldl_cons, documentChildStep, bodyOfChildren, ih]

theorem extractBody_eq (doc : Docx) :
    extractBody doc = bodyOfChildren doc.document.children := by
  simp only [extractBody, documentChildren_foldl, String.empty_append]

theorem join_foldl (l : List String) (acc : String) :
    l.foldl (fun r s => r ++ s) acc = acc ++ String.join l := by
  induction l generalizing acc with
  | nil => simp [String.join, String.append_empty]
  | cons x xs ih =>
    show List.foldl (fun r s => r ++ s) (acc ++ x) xs = acc ++ String.join (x :: xs)
    show List.foldl (fun r s => r ++ s) (acc ++ x) xs =
      acc ++ List.foldl (fun r s => r ++ s) ("" ++ x) xs
    rw [ih (acc ++ x), ih ("" ++ x), String.empty_append, String.append_assoc]

theorem join_cons (x : String) (xs : List String) :
    String.join (x :: xs) = x ++ String.join xs := by
  show List.foldl (fun r s => r ++ s) ("" ++ x) xs = x ++ String.join xs
  rw [join_foldl, String.empty_append]

theorem bodyOfChildren_join (l : List DocumentChild) :
    bodyOfChildren l =
      String.join (((l.filterMap fun c =>
        match c with
        | .paragraph p => some (specParagraphText p)
        | .other => none)).map fun t => t ++ "\n") := by
  induction l with
  | nil => rfl
  | cons c rest ih =>
    cases c with
    | paragraph p =>
      simp only [bodyOfChildren, List.filterMap_cons, List.map_cons, join_cons,
        ih, String.append_assoc]
    | other =>
      simp only [bodyOfChildren, List.filterMap_cons, ih]

/-- Boolean discriminator for the `DocumentChild::Paragraph` variant. -/
def isParagraphChild : DocumentChild → Bool
  | .paragraph _ => true
  | .other => false

/-- The document of the spec's worked example:
`Document{children: [Paragraph{runs:[Run{text:"Hello "}, Run{text:"World"}]},
Paragraph{runs:[]}, Paragraph{runs:[Run{text:"Bye"}]}]}`. -/
def exampleDoc : Docx :=
  ⟨⟨[.paragraph ⟨[.run ⟨[.text ⟨"Hello "⟩]⟩, .run ⟨[.text ⟨"World"⟩]⟩]⟩,
     .paragraph ⟨[]⟩,
     .paragraph ⟨[.run ⟨[.text ⟨"Bye"⟩]⟩]⟩]⟩⟩

/-- A document whose single text fragment is a NUL character: it decodes
fine, but `CString::new` rejects the assembled text. -/
def nulDoc : Docx :=
  ⟨⟨[.paragraph ⟨[.run ⟨[.text ⟨"\x00"⟩]⟩]⟩]⟩⟩

theorem bodyOfChildren_of_no_paragraph (l : List DocumentChild)
    (h : ∀ c ∈ l, isParagraphChild c = false) : bodyOfChildren l = "" := by
  induction l with
  | nil => rfl
  | cons c rest ih =>
    cases c with
    | paragraph p =>
      have := h (.paragraph p) (List.mem_cons_self _ _)
      simp [isParagraphChild] at this
    | other =>
      exact ih fun c hc => h c (List.mem_cons_of_mem _ hc)

/-- Claim C1: for every document that decodes successfully, the returned
string mirrors the declared paragraph order, each paragraph's text being
the concatenation of its run-text fragments in document order with no
separator between fragments, and a newline after each paragraph. -/
theorem extract_text_mirrors_paragraphs (doc : Docx) (s : String)
    (h : extract_text (.ok doc) = some s) :
    s = String.join ((specLines doc.document).map fun t => t ++ "\n") := by
  have hb : extract_text (.ok doc) = cstring_new (extractBody doc) := rfl
  rw [hb] at h
  unfold cstring_new at h
  by_cases hc : '\x00' ∈ (extractBody doc).data
  · simp [hc] at h
  · simp only [hc, if_neg, if_false] at h
    rw [← Option.some_inj.mp h, extractBody_eq, bodyOfChildren_join]
    rfl

/-- Claim C1 witness: the worked example instantiates the mirror
guarantee. -/
theorem extract_text_mirrors_paragraphs_example :
    "Hello World\n\nBye\n" =
      String.join ((specLines exampleDoc.document).map fun t => t ++ "\n") :=
  extract_text_mirrors_paragraphs exampleDoc "Hello World\n\nBye\n" (by decide)

/-- Claim C2: processing a paragraph appends its fragments followed by
exactly one newline, and a paragraph with no children appends just the
newline (an empty line). -/
theorem extractParagraph_one_newline (acc : String) (p : Paragraph) :
    extractParagraph acc p = acc ++ specParagraphText p ++ "\n" ∧
    extractParagraph acc ⟨[]⟩ = acc ++ "\n" := by
  refine ⟨extractParagraph_eq acc p, ?_⟩
  rw [extractParagraph_eq]
  simp [specParagraphText, textOfParagraphChildren, String.append_empty]

/-- Claim C3: a decode failure yields the failure signal (null) carrying
no text, and a decoded document with empty extracted text yields the
empty string, distinguishable from the failure signal. -/
theorem extract_text_failure_vs_empty :
    extract_text .err = none ∧
    ∀ doc : Docx, extractBody doc = "" →
      extract_text (.ok doc) = some "" ∧ extract_text (.ok doc) ≠ extract_text .err := by
  refine ⟨rfl, fun doc h => ?_⟩
  have hb : extract_text (.ok doc) = cstring_new (extractBody doc) := rfl
  rw [hb, h]
  exact ⟨by simp [cstring_new], by simp [cstring_new, extract_text]⟩

/-- Claim C3 witness: the empty document decodes to the empty non-failure
string. -/
theorem extract_text_failure_vs_empty_example :
    extract_text .err = none ∧ extract_text (.ok ⟨⟨[]⟩⟩) = some "" :=
  ⟨extract_text_failure_vs_empty.1,
    (extract_text_failure_vs_empty.2 ⟨⟨[]⟩⟩ rfl).1⟩

/-- Claim C4 counterexample: a successfully decoded document whose text
contains a NUL character makes `CString::new` fail, so `extract_text`
returns the null failure signal even though decoding succeeded. -/
theorem extract_text_nul_failure : extract_text (.ok nulDoc) = none := by
  decide

/-- Claim C4 (amended): for every document that decodes successfully and
whose extracted text contains no NUL character, the traversal and
result-assembly steps cannot fail and `extract_text` returns the
assembled text. -/
theorem extract_text_ok_of_no_nul (doc : Docx)
    (h : '\x00' ∉ (extractBody doc).data) :
    extract_text (.ok doc) = some (extractBody doc) := by
  show cstring_new (extractBody doc) = some (extractBody doc)
  simp [cstring_new, h]

/-- Claim C4 witness: the worked example contains no NUL and succeeds. -/
theorem extract_text_ok_of_no_nul_example :
    extract_text (.ok exampleDoc) = some (extractBody exampleDoc) :=
  extract_text_ok_of_no_nul exampleDoc (by decide)

/-- Claim C5: the spec's worked example input produces exactly
`"Hello World\n\nBye\n"`. -/
theorem extract_text_example :
    extract_text (.ok exampleDoc) = some "Hello World\n\nBye\n" := by
  decide

/-- Claim C7: a document with zero `Paragraph` children extracts to the
empty (non-failure) string. -/
theorem extract_text_empty_of_no_paragraphs (doc : Docx)
    (h : ∀ c ∈ doc.document.children, isParagraphChild c = false) :
    extract_text (.ok doc) = some "" := by
  have hb : extractBody doc = "" := by
    rw [extractBody_eq]
    exact bodyOfChildren_of_no_paragraph _ h
  show cstring_new (extractBody doc) = some ""
  rw [hb]
  simp [cstring_new]

/-- Claim C7 witness: a document with only a non-paragraph child yields
the empty string. -/
theorem extract_text_empty_of_no_paragraphs_example :
    extract_text (.ok ⟨⟨[DocumentChild.other]⟩⟩) = some "" :=
  extract_text_empty_of_no_paragraphs ⟨⟨[DocumentChild.other]⟩⟩ (by decide)

/-- Removal of the skipped run-level variants. -/
def pruneRun (r : Run) : Run :=
  ⟨r.children.filter fun rc =>
    match rc with
    | .text _ => true
    | .other => false⟩

/-- Removal of the skipped paragraph-level variants (recursing into the
kept runs). -/
def pruneParagraph (p : Paragraph) : Paragraph :=
  ⟨p.children.filterMap fun pc =>
    match pc with
    | .run r => some (.run (pruneRun r))
    | .other => none⟩

/-- Removal of the skipped document-level variants (recursing into the
kept paragraphs): the same document with every non-Paragraph, non-Run,
non-Text child removed. -/
def pruneDocument (d : Document) : Document :=
  ⟨d.children.filterMap fun c =>
    match c with
    | .paragraph p => some (.paragraph (pruneParagraph p))
    | .other => none⟩

theorem textOfRunChildren_prune (l : List RunChild) :
    textOfRunChildren (l.filter fun rc =>
      match rc with
      | .text _ => true
      | .other => false) = textOfRunChildren l := by
  induction l with
  | nil => rfl
  | cons c rest ih =>
    cases c with
    | text t =>
      simp only [List.filter_cons, if_true, textOfRunChildren]
      rw [ih]
    | other =>
      simp only [List.filter_cons, Bool.false_eq_true, if_false, textOfRunChildren]
      rw [ih]

theorem pruneRun_text (r : Run) :
    textOfRunChildren (pruneRun r).children = textOfRunChildren r.children :=
  textOfRunChildren_prune r.children

theorem textOfParagraphChildren_prune (l : List ParagraphChild) :
    textOfParagraphChildren (l.filterMap fun pc =>
      match pc with
      | .run r => some (.run (pruneRun r))
      | .other => none) = textOfParagraphChildren l := by
  induction l with
  | nil => rfl
  | cons c rest ih =>
    cases c with
    | run r =>
      simp only [List.filterMap_cons, textOfParagraphChildren]
      rw [ih, pruneRun_text]
    | other =>
      simp only [List.filterMap_cons, textOfParagraphChildren]
      rw [ih]

theorem pruneParagraph_text (p : Paragraph) :
    specParagraphText (pruneParagraph p) = specParagraphText p :=
  textOfParagraphChildren_prune p.children

theorem bodyOfChildren_prune (l : List DocumentChild) :
    bodyOfChildren (l.filterMap fun c =>
      match c with
      | .paragraph p => some (.paragraph (pruneParagraph p))
      | .other => none) = bodyOfChildren l := by
  induction l with
  | nil => rfl
  | cons c rest ih =>
    cases c with
    | paragraph p =>
      simp only [List.filterMap_cons, bodyOfChildren]
      rw [ih, pruneParagraph_text]
    | other =>
      simp only [List.filterMap_cons, bodyOfChildren]
      rw [ih]

/-- Claim C8: skipped variants have no effect and never cause failure —
extraction of a document equals extraction of the same document with all
non-Paragraph, non-Run, non-Text children removed, both for the assembled
buffer and for the full (fallible) result. -/
theorem extract_text_skips_irrelevant (doc : Docx) :
    extractBody ⟨pruneDocument doc.document⟩ = extractBody doc ∧
    extract_text (.ok ⟨pruneDocument doc.document⟩) = extract_text (.ok doc) := by
  have h : extractBody ⟨pruneDocument doc.document⟩ = extractBody doc := by
    rw [extractBody_eq, extractBody_eq]
    exact bodyOfChildren_prune _
  refine ⟨h, ?_⟩
  show cstring_new (extractBody ⟨pruneDocument doc.document⟩) =
    cstring_new (extractBody doc)
  rw [h]

/-- The paragraph texts of a child list, in order (list-level version of
`specLines`). -/
def linesOfChildren (l : List DocumentChild) : List String :=
  l.filterMap fun c =>
    match c with
    | .paragraph p => some (specParagraphText p)
    | .other => none

/-- Spec-side definition of splitting a character sequence on the newline
character: the groups between newlines, in order (a trailing newline
yields a final empty group). -/
def splitNl : List Char → List (List Char)
  | [] => [[]]
  | c :: rest =>
    if c = '\n' then [] :: splitNl rest
    else
      match splitNl rest with
      | [] => [[c]]
      | g :: gs => (c :: g) :: gs

/-- Spec-side definition: splitting a string on newline. -/
def stringSplitNl (s : String) : List String :=
  (splitNl s.data).map fun l => ⟨l⟩

theorem splitNl_append (pre suf : List Char) (h : '\n' ∉ pre) :
    splitNl (pre ++ '\n' :: suf) = pre :: splitNl suf := by
  induction pre with
  | nil => simp [splitNl]
  | cons c pre ih =>
    have hc : c ≠ '\n' := fun e => h (e ▸ List.mem_cons_self c pre)
    have hpre : '\n' ∉ pre := fun m => h (List.mem_cons_of_mem _ m)
    simp only [List.cons_append, splitNl, if_neg hc, List.append_eq, ih hpre]

theorem data_paragraph_line (t b : String) :
    (t ++ "\n" ++ b).data = t.data ++ '\n' :: b.data := by
  rw [String.data_append, String.data_append, List.append_assoc]
  rfl

theorem bodyOfChildren_count_split (l : List DocumentChild)
    (h : ∀ t ∈ linesOfChildren l, '\n' ∉ t.data) :
    (bodyOfChildren l).data.count '\n' = (linesOfChildren l).length ∧
    splitNl (bodyOfChildren l).data =
      (linesOfChildren l).map String.data ++ [[]] := by
  induction l with
  | nil => exact ⟨rfl, rfl⟩
  | cons c rest ih =>
    cases c with
    | paragraph p =>
      have hmem : specParagraphText p ∈ linesOfChildren (.paragraph p :: rest) := by
        simp [linesOfChildren, List.filterMap_cons]
      have ht : '\n' ∉ (specParagraphText p).data := h _ hmem
      have hrest : ∀ t ∈ linesOfChildren rest, '\n' ∉ t.data := by
        intro t htm
        refine h t ?_
        simp [linesOfChildren, List.filterMap_cons] at htm ⊢
        exact Or.inr htm
      obtain ⟨ihc, ihs⟩ := ih hrest
      constructor
      · simp only [bodyOfChildren, data_paragraph_line, List.count_append,
          List.count_cons_self, linesOfChildren, List.filterMap_cons,
          List.length_cons]
        have hz : (specParagraphText p).data.count '\n' = 0 :=
          List.count_eq_zero.mpr ht
        rw [hz]
        simp only [linesOfChildren] at ihc
        omega
      · simp only [bodyOfChildren, data_paragraph_line, linesOfChildren,
          List.filterMap_cons, List.map_cons, List.cons_append]
        rw [splitNl_append _ _ ht]
        simp only [linesOfChildren] at ihs
        rw [ihs]
    | other =>
      have heq : linesOfChildren (DocumentChild.other :: rest) =
          linesOfChildren rest := by
        simp [linesOfChildren, List.filterMap_cons]
      have hrest : ∀ t ∈ linesOfChildren rest, '\n' ∉ t.data := by
        intro t htm
        exact h t (heq ▸ htm)
      have hb : bodyOfChildren (DocumentChild.other :: rest) =
          bodyOfChildren rest := by
        simp only [bodyOfChildren]
      rw [hb, heq]
      exact ih hrest

/-- A document whose single paragraph's run text itself contains a
newline: the claim's newline count is violated. -/
def newlineDoc : Docx :=
  ⟨⟨[.paragraph ⟨[.run ⟨[.text ⟨"a\nb"⟩]⟩]⟩]⟩⟩

/-- Claim C6 counterexample: a document with one paragraph containing
text (namely the nonempty fragment with an embedded newline) whose
extraction result contains two newline characters, not one. -/
theorem extract_text_newline_count_counterexample :
    (specLines newlineDoc.document).length = 1 ∧
    (∀ t ∈ specLines newlineDoc.document, t ≠ "") ∧
    ¬ ((extractBody newlineDoc).data.count '\n' =
        (specLines newlineDoc.document).length) := by
  decide

/-- Claim C6 (amended): for every document with N Paragraph children,
each containing text and none of whose paragraph texts contains a
newline character, the result contains exactly N newlines and splitting
the result on newline yields the N paragraph texts in original order,
followed by the empty remainder after the final newline. -/
theorem extract_text_newline_count (doc : Docx)
    (hne : ∀ t ∈ specLines doc.document, t ≠ "")
    (hnl : ∀ t ∈ specLines doc.document, '\n' ∉ t.data) :
    (extractBody doc).data.count '\n' = (specLines doc.document).length ∧
    stringSplitNl (extractBody doc) = specLines doc.document ++ [""] := by
  have hsp : specLines doc.document = linesOfChildren doc.document.children := rfl
  obtain ⟨hc, hs⟩ := bodyOfChildren_count_split doc.document.children
    (by rw [← hsp]; exact hnl)
  constructor
  · rw [extractBody_eq, hsp]
    exact hc
  · rw [hsp]
    unfold stringSplitNl
    rw [extractBody_eq, hs, List.map_append, List.map_map]
    have hmap : (linesOfChildren doc.document.children).map
        ((fun l => (⟨l⟩ : String)) ∘ String.data) =
        linesOfChildren doc.document.children := by
      have hpt : ∀ s ∈ linesOfChildren doc.document.children,
          ((fun l => (⟨l⟩ : String)) ∘ String.data) s = id s := fun s _ => rfl
      rw [List.map_congr_left hpt, List.map_id]
    rw [hmap]
    rfl

/-- A document with two text-bearing paragraphs, used to instantiate the
newline-count theorem. -/
def twoDoc : Docx :=
  ⟨⟨[.paragraph ⟨[.run ⟨[.text ⟨"a"⟩]⟩]⟩,
     .paragraph ⟨[.run ⟨[.text ⟨"b"⟩]⟩]⟩]⟩⟩

/-- Claim C6 witness: a two-paragraph document has two newlines and
splits back into its paragraph texts. -/
theorem extract_text_newline_count_example :
    (extractBody twoDoc).data.count '\n' = (specLines twoDoc.document).length ∧
    stringSplitNl (extractBody twoDoc) = specLines twoDoc.document ++ [""] :=
  extract_text_newline_count twoDoc (by decide) (by decide)

/-- The inner CSI-consuming loop of `strip_ansi`: after `ESC [`, consume
characters up to and including the first ASCII-alphabetic one
(`while let Some(&nc) = chars.peek() { chars.next();
if nc.is_ascii_alphabetic() { break; } }`). -/
def consumeCsi : List Char → List Char
  | [] => []
  | nc :: rest => if nc.isAlpha then rest else consumeCsi rest

theorem consumeCsi_length (l : List Char) : (consumeCsi l).length ≤ l.length := by
  induction l with
  | nil => simp [consumeCsi]
  | cons nc rest ih =>
    simp only [consumeCsi]
    split
    · simp
    · exact Nat.le_trans ih (Nat.le_succ _)

/-- The main loop of `strip_ansi` over the character stream: an ESC
followed by `[` starts a CSI sequence which is consumed without output;
a lone ESC is dropped; every other character is pushed to the result. -/
def stripAnsiAux : List Char → List Char
  | [] => []
  | '\x1b' :: '[' :: rest2 => stripAnsiAux (consumeCsi rest2)
  | c :: rest => if c = '\x1b' then stripAnsiAux rest else c :: stripAnsiAux rest
termination_by l => l.length
decreasing_by
  all_goals simp only [List.length_cons]
  · have := consumeCsi_length rest2
    omega
  · omega
  · omega

/-- `strip_ansi`: removes ANSI escape sequences from a string. -/
def strip_ansi (s : String) : String := ⟨stripAnsiAux s.data⟩

theorem stripAnsiAux_no_esc (l : List Char) : '\x1b' ∉ stripAnsiAux l := by
  induction l using stripAnsiAux.induct with
  | case1 => simp [stripAnsiAux.eq_1]
  | case2 rest2 ih => rw [stripAnsiAux.eq_2]; exact ih
  | case3 rest hshape ih =>
    rw [stripAnsiAux.eq_3 _ _ hshape, if_pos rfl]
    exact ih
  | case4 c rest hshape hne ih =>
    rw [stripAnsiAux.eq_3 _ _ hshape, if_neg hne]
    intro hmem
    rcases List.mem_cons.mp hmem with h | h
    · exact hne h.symm
    · exact ih h

theorem stripAnsiAux_of_no_esc (l : List Char) (h : '\x1b' ∉ l) :
    stripAnsiAux l = l := by
  induction l with
  | nil => exact stripAnsiAux.eq_1
  | cons c rest ih =>
    have hc : c ≠ '\x1b' := fun e => h (e ▸ List.mem_cons_self c rest)
    have hshape : ∀ rest2, c = '\x1b' → rest = '[' :: rest2 → False :=
      fun rest2 he _ => hc he
    rw [stripAnsiAux.eq_3 c rest hshape, if_neg hc,
      ih fun m => h (List.mem_cons_of_mem _ m)]

/-- Claim C9: `strip_ansi` is idempotent, its output never contains the
ESC character, and a string with no ESC is returned unchanged. -/
theorem strip_ansi_idempotent (s : String) :
    strip_ansi (strip_ansi s) = strip_ansi s ∧
    '\x1b' ∉ (strip_ansi s).data ∧
    ('\x1b' ∉ s.data → strip_ansi s = s) := by
  refine ⟨?_, stripAnsiAux_no_esc s.data, ?_⟩
  · show (⟨stripAnsiAux (stripAnsiAux s.data)⟩ : String) = ⟨stripAnsiAux s.data⟩
    rw [stripAnsiAux_of_no_esc _ (stripAnsiAux_no_esc s.data)]
  · intro h
    show (⟨stripAnsiAux s.data⟩ : String) = s
    rw [stripAnsiAux_of_no_esc _ h]

/-- Claim C9 witness: idempotence at a string with a colour escape, and
an escape-free string returned unchanged. -/
theorem strip_ansi_idempotent_example :
    strip_ansi (strip_ansi "a\x1b[31mb") = strip_ansi "a\x1b[31mb" ∧
    strip_ansi "ab" = "ab" :=
  ⟨(strip_ansi_idempotent "a\x1b[31mb").1,
    (strip_ansi_idempotent "ab").2.2 (by decide)⟩

/-- `free_string` over an abstract heap of live allocations (the list of
addresses currently owned by returned strings): the argument is the
pointer handed back by `extract_text`/`kiro_chat`, with `none` playing
the role of the null pointer.  The returned Bool records whether the
null check passed and a deallocation (`drop(CString::from_raw(s))`) was
performed. -/
def free_string (s : Option Nat) (heap : List Nat) : List Nat × Bool :=
  match s with
  | none => (heap, false)
  | some p => (heap.erase p, true)

/-- Claim C10: calling `free_string` on the null pointer (the failure
indicator) takes the null branch: the heap is untouched and no
deallocation is attempted. -/
theorem free_string_null_noop (heap : List Nat) :
    free_string none heap = (heap, false) := rfl

end Synth
